import Mathlib

/-!
# Verification of the block-party orchestration store

A shallow embedding of the zustand store in `src/store.ts` of the
block-party repository.  Blocks, configurations, the per-type counters and
the single editing pointer are modelled explicitly; JavaScript `Map`s keyed
by strings become association lists (insertion ordered, unique keys in
every reachable state, `set` replaces the first entry with the key or
appends, `delete` removes it), and `Date.now()` becomes an explicit `now`
argument to every operation that reads the clock.  The throwing paths of
`addBlock` and `saveBlock` are modelled with `Except`: an error carries the
thrown message and the store part of the result is the state the mutable
module is left in (for `addBlock` the module level id counter has already
been bumped when the default-data validation throws).
-/

namespace BlockParty

/-- The opaque `data` payload of a block.  The store never inspects it
except through the registered validator, so any type with decidable
equality is a faithful stand-in. -/
abbrev BlockData := Nat

/-- `BlockState` from `src/types.ts`: `'empty' | 'dirty' | 'clean'`. -/
inductive BlockState where
  | empty
  | dirty
  | clean
deriving DecidableEq, Repr

/-- `Block` from `src/types.ts`.  `order` is a JavaScript number that the
store only ever adds or subtracts `1` from, starting from `maxOrder + 1`
with `maxOrder` seeded at `-1`, so `Int` is the faithful carrier.
`savedAt?` is optional. -/
structure Block where
  id : String
  type : String
  data : BlockData
  order : Int
  state : BlockState
  isEditing : Bool
  createdAt : Nat
  updatedAt : Nat
  savedAt : Option Nat := none
deriving DecidableEq, Repr

/-- `BlockConfig` from `src/types.ts`, restricted to the fields the store
reads.  `renderView`/`renderEdit` are never called by the store and are
omitted; the presence and behaviour of `onSave` only determines whether
`saveBlock` suspends between its check phase and its apply phase, which is
modelled by exposing the two phases separately (`saveBlockCheck`,
`saveBlockApply`). -/
structure BlockConfig where
  type : String
  displayName : String
  maxBlocks : Option Nat := none
  createDefault : Unit → BlockData
  validate : Option (BlockData → Bool) := none

/-- The store state of `useBlockStore` in `src/store.ts`, together with the
module-level `blockIdCounter` that `generateBlockId` increments. -/
structure Store where
  blocks : List Block
  configs : List (String × BlockConfig)
  editingBlockId : Option String
  blockCounts : List (String × Nat)
  blockIdCounter : Nat

/-- `generateBlockId`: ``block-${Date.now()}-${++blockIdCounter}`` with the
already incremented counter value. -/
def generateBlockId (now ctr : Nat) : String :=
  "block-" ++ Nat.repr now ++ "-" ++ Nat.repr ctr

/-- `Map.get` on the config registry. -/
def lookupConfig (configs : List (String × BlockConfig)) (t : String) :
    Option BlockConfig :=
  match configs.find? (fun p => p.1 == t) with
  | none => none
  | some p => some p.2

/-- `Map.set` on the config registry: replace the first entry with the key,
or append. -/
def setConfig : List (String × BlockConfig) → String → BlockConfig →
    List (String × BlockConfig)
  | [], t, c => [(t, c)]
  | p :: ps, t, c => if p.1 == t then (t, c) :: ps else p :: setConfig ps t c

/-- `Map.delete` on the config registry. -/
def eraseConfig : List (String × BlockConfig) → String →
    List (String × BlockConfig)
  | [], _ => []
  | p :: ps, t => if p.1 == t then ps else p :: eraseConfig ps t

/-- `blocks.get(id)`. -/
def findBlock (blocks : List Block) (id : String) : Option Block :=
  blocks.find? (fun b => b.id == id)

/-- `blocks.set(id, b)`: replace the first block with the key, or append.
Every `set` in the source stores a value whose `id` field equals the key. -/
def setBlock : List Block → String → Block → List Block
  | [], _, b => [b]
  | x :: xs, id, b => if x.id == id then b :: xs else x :: setBlock xs id b

/-- `blocks.delete(id)`. -/
def eraseBlock : List Block → String → List Block
  | [], _ => []
  | x :: xs, id => if x.id == id then xs else x :: eraseBlock xs id

/-- `state.blockCounts.get(type) || 0`. -/
def lookupCount (counts : List (String × Nat)) (t : String) : Nat :=
  match counts.find? (fun p => p.1 == t) with
  | none => 0
  | some p => p.2

/-- `blockCounts.set(type, n)`. -/
def setCount : List (String × Nat) → String → Nat → List (String × Nat)
  | [], t, n => [(t, n)]
  | p :: ps, t, n => if p.1 == t then (t, n) :: ps else p :: setCount ps t n

/-- The truthiness guard `config.maxBlocks && currentCount >=
config.maxBlocks` of `addBlock`: an absent limit is falsy, and so is the
number `0`. -/
def limitReached (maxBlocks : Option Nat) (currentCount : Nat) : Bool :=
  match maxBlocks with
  | none => false
  | some m => if m == 0 then false else currentCount ≥ m

/-- `registerConfig`. -/
def registerConfig (s : Store) (config : BlockConfig) : Store :=
  { s with configs := setConfig s.configs config.type config }

/-- `unregisterConfig`. -/
def unregisterConfig (s : Store) (t : String) : Store :=
  { s with configs := eraseConfig s.configs t }

/-- `addBlock`.  Returns the JS result (`.ok (some id)` for a created
block, `.ok none` for the `null` sentinel at the limit, `.error` for a
throw) together with the state the module is left in.  The id counter is
incremented before the default-data validation, so the throwing validation
path still bumps it. -/
def addBlock (s : Store) (t : String) (now : Nat) :
    Except String (Option String) × Store :=
  match lookupConfig s.configs t with
  | none => (.error ("Config not found for block type: " ++ t), s)
  | some config =>
    let currentCount := lookupCount s.blockCounts t
    if limitReached config.maxBlocks currentCount then
      (.ok none, s)
    else
      let ctr := s.blockIdCounter + 1
      let id := generateBlockId now ctr
      let maxOrder := s.blocks.foldl (fun m b => max m b.order) (-1)
      let newBlock : Block :=
        { id := id, type := t, data := config.createDefault ()
          order := maxOrder + 1, state := .empty, isEditing := false
          createdAt := now, updatedAt := now, savedAt := none }
      let ok : Bool :=
        match config.validate with
        | none => true
        | some v => v newBlock.data
      if ok then
        (.ok (some id),
          { s with
              blocks := setBlock s.blocks id newBlock
              blockCounts := setCount s.blockCounts t (currentCount + 1)
              blockIdCounter := ctr })
      else
        (.error "Invalid default data for block", { s with blockIdCounter := ctr })

/-- `removeBlock`. -/
def removeBlock (s : Store) (id : String) : Store :=
  match findBlock s.blocks id with
  | none => s
  | some block =>
    let blocks := eraseBlock s.blocks id
    let currentCount := lookupCount s.blockCounts block.type
    let blockCounts :=
      if currentCount > 0 then setCount s.blockCounts block.type (currentCount - 1)
      else s.blockCounts
    let editingBlockId :=
      if s.editingBlockId == some id then none else s.editingBlockId
    { s with blocks := blocks, blockCounts := blockCounts,
             editingBlockId := editingBlockId }

/-- `updateBlockData`. -/
def updateBlockData (s : Store) (id : String) (data : BlockData) (now : Nat) :
    Store :=
  match findBlock s.blocks id with
  | none => s
  | some block =>
    let updated : Block :=
      { block with data := data, state := .dirty, updatedAt := now }
    { s with blocks := setBlock s.blocks id updated }

/-- The per-entry update of `moveBlock`'s `forEach` body: every `set` in the
loop targets the visited key, so the loop is a pointwise map. -/
def moveShift (id : String) (oldOrder newOrder : Int) (now : Nat) (b : Block) :
    Block :=
  if b.id == id then
    { b with order := newOrder, updatedAt := now }
  else if oldOrder < newOrder && b.order > oldOrder && b.order ≤ newOrder then
    { b with order := b.order - 1 }
  else if oldOrder > newOrder && b.order ≥ newOrder && b.order < oldOrder then
    { b with order := b.order + 1 }
  else b

/-- `moveBlock`. -/
def moveBlock (s : Store) (id : String) (newOrder : Int) (now : Nat) : Store :=
  match findBlock s.blocks id with
  | none => s
  | some block =>
    { s with blocks := s.blocks.map (moveShift id block.order newOrder now) }

/-- `enableBlockEdit`.  The guard `state.editingBlockId &&
state.editingBlockId !== id` tests JS truthiness of the pointer, so an
empty-string pointer would be skipped; the final `set` reuses the block
fetched before the disabling step. -/
def enableBlockEdit (s : Store) (id : String) : Store :=
  match findBlock s.blocks id with
  | none => s
  | some block =>
    let blocks :=
      match s.editingBlockId with
      | none => s.blocks
      | some eid =>
        if eid != "" && eid != id then
          match findBlock s.blocks eid with
          | none => s.blocks
          | some editingBlock =>
            setBlock s.blocks eid { editingBlock with isEditing := false }
        else s.blocks
    { s with blocks := setBlock blocks id { block with isEditing := true }
             editingBlockId := some id }

/-- `disableBlockEdit`. -/
def disableBlockEdit (s : Store) (id : String) : Store :=
  match findBlock s.blocks id with
  | none => s
  | some block =>
    { s with
        blocks := setBlock s.blocks id { block with isEditing := false }
        editingBlockId :=
          if s.editingBlockId == some id then none else s.editingBlockId }

/-- The synchronous prefix of `saveBlock`, up to the `await` of
`config.onSave`: look the block and its config up, run the validator, and
capture the block for the post-await update.  A `.error` is a rejection of
the returned promise before any suspension. -/
def saveBlockCheck (s : Store) (id : String) : Except String Block :=
  match findBlock s.blocks id with
  | none => .error "Block or config not found"
  | some block =>
    match lookupConfig s.configs block.type with
    | none => .error "Block or config not found"
    | some config =>
      match config.validate with
      | none => .ok block
      | some v =>
        if v block.data then .ok block
        else .error "Block data validation failed"

/-- The post-await `set` of `saveBlock`, applied to the store state at
resumption time with the block captured by `saveBlockCheck` before the
suspension: `blocks.set(id, { ...block, state: 'clean', isEditing: false,
updatedAt: now, savedAt: now })`, clearing the editing pointer when it
points at `id`.  The source performs no existence re-check here. -/
def saveBlockApply (s : Store) (id : String) (block : Block) (now : Nat) :
    Store :=
  let saved : Block :=
    { block with state := .clean, isEditing := false,
                 updatedAt := now, savedAt := some now }
  { s with
      blocks := setBlock s.blocks id saved
      editingBlockId :=
        if s.editingBlockId == some id then none else s.editingBlockId }

/-- `saveBlock` when nothing else runs during the `await` (in particular
whenever `onSave` is absent, or resolves with no interleaved mutation): the
check phase followed by the apply phase on the unchanged state.  A
rejecting `onSave` leaves the store untouched, which coincides with the
`.error` branch. -/
def saveBlock (s : Store) (id : String) (now : Nat) :
    Except String Unit × Store :=
  match saveBlockCheck s id with
  | .error e => (.error e, s)
  | .ok block => (.ok (), saveBlockApply s id block now)

/-- `canAddBlock`: `false` without a config, `true` when `!config.maxBlocks`
(absent or the falsy `0`), otherwise `currentCount < maxBlocks`. -/
def canAddBlock (s : Store) (t : String) : Bool :=
  match lookupConfig s.configs t with
  | none => false
  | some config =>
    match config.maxBlocks with
    | none => true
    | some m =>
      if m == 0 then true
      else lookupCount s.blockCounts t < m

/-- `getBlock`. -/
def getBlock (s : Store) (id : String) : Option Block :=
  findBlock s.blocks id

/-- The initial state of the store (and of the module id counter). -/
def initialStore : Store :=
  { blocks := [], configs := [], editingBlockId := none,
    blockCounts := [], blockIdCounter := 0 }

/-- One call of the store's public mutating interface, with the clock
reading attached where the source reads `Date.now()`. -/
inductive Op where
  | registerConfig (config : BlockConfig)
  | unregisterConfig (t : String)
  | addBlock (t : String) (now : Nat)
  | removeBlock (id : String)
  | updateBlockData (id : String) (data : BlockData) (now : Nat)
  | moveBlock (id : String) (newOrder : Int) (now : Nat)
  | enableBlockEdit (id : String)
  | disableBlockEdit (id : String)
  | saveBlock (id : String) (now : Nat)

/-- The state transition of one call, discarding the returned value. -/
def applyOp (s : Store) : Op → Store
  | .registerConfig config => registerConfig s config
  | .unregisterConfig t => unregisterConfig s t
  | .addBlock t now => (addBlock s t now).2
  | .removeBlock id => removeBlock s id
  | .updateBlockData id data now => updateBlockData s id data now
  | .moveBlock id newOrder now => moveBlock s id newOrder now
  | .enableBlockEdit id => enableBlockEdit s id
  | .disableBlockEdit id => disableBlockEdit s id
  | .saveBlock id now => (saveBlock s id now).2

/-- Run a call sequence from a state. -/
def runOps (s : Store) (ops : List Op) : Store :=
  ops.foldl applyOp s

/-! ### Derived notions used by the claims -/

/-- The number of blocks of a type actually present in the collection. -/
def countOfType (s : Store) (t : String) : Nat :=
  (s.blocks.filter (fun b => b.type == t)).length

/-- The order-density invariant of the specification read at one state for
one type, following the spec's words: the `order` values among existing
blocks of the type are exactly `{0, 1, ..., count-1}` with no gaps or
duplicates.  (All those values are present among `count` blocks if and only
if the values are a permutation of `0 .. count-1`.) -/
def perTypeOrdersDense (s : Store) (t : String) : Bool :=
  let os := (s.blocks.filter (fun b => b.type == t)).map (·.order)
  (List.range os.length).all (fun k => os.contains (k : Int))

/-- The list of ids present in the collection, in insertion order. -/
def blockIds (s : Store) : List String := s.blocks.map (·.id)

/-- The list of order values present in the collection. -/
def ordersOf (s : Store) : List Int := s.blocks.map (·.order)

/-- Ops that only register configurations or add blocks. -/
def Op.isAddLike : Op → Bool
  | .registerConfig _ => true
  | .addBlock _ _ => true
  | _ => false

/-- The default payload of a config passes its validator (vacuously when no
validator is registered). -/
def validateDefaultOk (config : BlockConfig) : Bool :=
  match config.validate with
  | none => true
  | some v => v (config.createDefault ())

/-- Run `addBlock` once per clock reading in the list, collecting the
returned values. -/
def addBlocksRun : Store → String → List Nat →
    List (Except String (Option String)) × Store
  | s, _, [] => ([], s)
  | s, t, now :: rest =>
    let r := addBlock s t now
    let tl := addBlocksRun r.2 t rest
    (r.1 :: tl.1, tl.2)

/-- An `addBlock` result that is a freshly created id (neither the `null`
sentinel nor a thrown error). -/
def isOkSome : Except String (Option String) → Bool
  | .ok (some _) => true
  | _ => false

/-- Every block's `isEditing` flag agrees with the pointer `o`: when `o` is
`some i` exactly the block with id `i` may be editing, when `o` is `none`
no block is editing. -/
def editingAgrees (s : Store) (o : Option String) : Bool :=
  s.blocks.all (fun b =>
    b.isEditing == (match o with
      | some i => b.id == i
      | none => false))

/-- The per-type counters agree with the blocks actually present. -/
def CountsOk (s : Store) : Prop :=
  ∀ t, lookupCount s.blockCounts t = countOfType s t

/-- A block id the id generator produced with a counter value that the
module counter has already passed. -/
def IdWellFormed (ctr : Nat) (b : Block) : Prop :=
  ∃ t c, 0 < c ∧ c ≤ ctr ∧ b.id = generateBlockId t c

/-- The reachable-state invariant: ids are distinct and were produced by
the generator with already-consumed counter values, and the per-type
counters are accurate. -/
def StoreInv (s : Store) : Prop :=
  (blockIds s).Nodup ∧ (∀ b ∈ s.blocks, IdWellFormed s.blockIdCounter b) ∧
    CountsOk s

/-- The order values of all blocks (all types together) are exactly
`{0, 1, ..., total-1}`: they are a permutation of `0 .. total-1`. -/
def OrdersDense (s : Store) : Prop :=
  (ordersOf s).Perm ((List.range s.blocks.length).map Int.ofNat)

/-! ### Decimal strings

`generateBlockId` embeds the strictly increasing module counter in the id
string, so distinctness of ids reduces to the decimal rendering
`Nat.repr` being injective, which is proved here from scratch via the
evaluation map `digitsVal`. -/

/-- The numeric value of a decimal digit character. -/
def chVal (c : Char) : Nat := c.toNat - 48

/-- Read a most-significant-first digit list back as a number. -/
def digitsVal (cs : List Char) : Nat :=
  cs.foldl (fun a c => 10 * a + chVal c) 0

/-- The decimal digit list of a number, as used by `Nat.repr`. -/
def digits10 (n : Nat) : List Char := Nat.toDigits 10 n

/-! ### Concrete fixtures for counterexamples and witnesses -/

/-- A config for type `"a"` with no limit and no validator. -/
def cfgA : BlockConfig :=
  { type := "a", displayName := "A", createDefault := fun _ => 0 }

/-- A config for type `"b"` with no limit and no validator. -/
def cfgB : BlockConfig :=
  { type := "b", displayName := "B", createDefault := fun _ => 0 }

/-- A config for type `"lim"` with `maxBlocks = 2`. -/
def cfgLim2 : BlockConfig :=
  { type := "lim", displayName := "Limited", maxBlocks := some 2,
    createDefault := fun _ => 0 }

/-- A config for type `"z"` with the falsy limit `maxBlocks = 0`. -/
def cfgZero : BlockConfig :=
  { type := "z", displayName := "Zero", maxBlocks := some 0,
    createDefault := fun _ => 0 }

/-- A config for type `"v"` whose validator accepts only the payload `0`. -/
def cfgVal : BlockConfig :=
  { type := "v", displayName := "Validated", createDefault := fun _ => 0,
    validate := some (fun d => d == 0) }

/-- A concrete block fixture. -/
def mkBlock (id : String) (t : String) (data : BlockData) (order : Int) :
    Block :=
  { id := id, type := t, data := data, order := order, state := .empty,
    isEditing := false, createdAt := 0, updatedAt := 0, savedAt := none }

/-- A store holding three blocks of type `"a"` at orders `0, 1, 2`. -/
def threeBlockStore : Store :=
  { blocks := [mkBlock "x" "a" 0 0, mkBlock "y" "a" 0 1, mkBlock "z" "a" 0 2],
    configs := [("a", cfgA)], editingBlockId := none,
    blockCounts := [("a", 3)], blockIdCounter := 3 }

/-- A store holding one block of the validated type `"v"` whose current
payload `1` is rejected by the validator. -/
def rejectedStore : Store :=
  { blocks := [{ mkBlock "v1" "v" 1 0 with state := .dirty, isEditing := true }],
    configs := [("v", cfgVal)], editingBlockId := some "v1",
    blockCounts := [("v", 1)], blockIdCounter := 1 }

/-- The store reached by registering the `"a"` config and adding one block
at clock reading `0`; its block has id `block-0-1`. -/
def oneBlockStore : Store :=
  runOps initialStore [.registerConfig cfgA, .addBlock "a" 0]

/-- The empty store with the `maxBlocks = 2` config registered. -/
def limitStore : Store := registerConfig initialStore cfgLim2

/-- The state reached by registering two configs and adding one block of
each type; the type-`"b"` block carries the globally numbered order `1`. -/
def mixedTypesStore : Store :=
  runOps initialStore
    [.registerConfig cfgA, .registerConfig cfgB, .addBlock "a" 0,
     .addBlock "b" 1]

/-- The block object that the success branch of `addBlock` constructs. -/
def newBlockOf (s : Store) (t : String) (now : Nat) (config : BlockConfig) :
    Block :=
  { id := generateBlockId now (s.blockIdCounter + 1), type := t,
    data := config.createDefault (),
    order := s.blocks.foldl (fun m b => max m b.order) (-1) + 1,
    state := .empty, isEditing := false, createdAt := now, updatedAt := now,
    savedAt := none }

/-! ## Lemmas on decimal strings and id freshness -/

lemma toDigitsCore_append (fuel : Nat) : ∀ (n : Nat) (ds : List Char),
    Nat.toDigitsCore 10 fuel n ds = Nat.toDigitsCore 10 fuel n [] ++ ds := by
  induction fuel with
  | zero => intro n ds; simp [Nat.toDigitsCore]
  | succ f ih =>
    intro n ds
    simp only [Nat.toDigitsCore]
    by_cases h : n / 10 = 0
    · simp [h]
    · simp only [h, if_false]
      rw [ih (n / 10) ((n % 10).digitChar :: ds),
        ih (n / 10) [(n % 10).digitChar]]
      simp

lemma toDigitsCore_fuel : ∀ (n fuel fuel' : Nat), n < fuel → n < fuel' →
    Nat.toDigitsCore 10 fuel n [] = Nat.toDigitsCore 10 fuel' n [] := by
  intro n
  induction n using Nat.strong_induction_on with
  | _ n ih =>
    intro fuel fuel' hf hf'
    match fuel, fuel' with
    | f + 1, f' + 1 =>
      simp only [Nat.toDigitsCore]
      by_cases h : n / 10 = 0
      · simp [h]
      · simp only [h, if_false]
        have hn : 10 ≤ n := by
          by_contra hlt
          exact h (Nat.div_eq_of_lt (by omega))
        have hd : n / 10 < n := Nat.div_lt_self (by omega) (by norm_num)
        rw [toDigitsCore_append f, toDigitsCore_append f']
        rw [ih (n / 10) hd f f' (by omega) (by omega)]

lemma digits10_lt (n : Nat) (h : n < 10) : digits10 n = [Nat.digitChar n] := by
  have h0 : n / 10 = 0 := Nat.div_eq_of_lt h
  have hm : n % 10 = n := Nat.mod_eq_of_lt h
  simp [digits10, Nat.toDigits, Nat.toDigitsCore, h0, hm]

lemma digits10_ge (n : Nat) (h : 10 ≤ n) :
    digits10 n = digits10 (n / 10) ++ [Nat.digitChar (n % 10)] := by
  have h0 : n / 10 ≠ 0 := by
    have h1 : 1 ≤ n / 10 := (Nat.one_le_div_iff (by norm_num)).2 h
    omega
  have hd : n / 10 < n := Nat.div_lt_self (by omega) (by norm_num)
  show Nat.toDigitsCore 10 (n + 1) n [] = _
  simp only [Nat.toDigitsCore, h0, if_false]
  rw [toDigitsCore_append n (n / 10)]
  rw [toDigitsCore_fuel (n / 10) n (n / 10 + 1) (by omega) (by omega)]
  rfl

lemma chVal_digitChar (n : Nat) (h : n < 10) : chVal (Nat.digitChar n) = n := by
  interval_cases n <;> rfl

lemma digitChar_ne_dash (n : Nat) (h : n < 10) : Nat.digitChar n ≠ '-' := by
  interval_cases n <;> decide

lemma digitsVal_append_digit (cs : List Char) (c : Char) :
    digitsVal (cs ++ [c]) = 10 * digitsVal cs + chVal c := by
  simp [digitsVal, List.foldl_append]

lemma digitsVal_digits10 : ∀ n, digitsVal (digits10 n) = n := by
  intro n
  induction n using Nat.strong_induction_on with
  | _ n ih =>
    by_cases h : n < 10
    · rw [digits10_lt n h]
      show 10 * 0 + chVal (Nat.digitChar n) = n
      rw [chVal_digitChar n h]
      omega
    · push_neg at h
      rw [digits10_ge n h, digitsVal_append_digit,
        ih (n / 10) (Nat.div_lt_self (by omega) (by norm_num)),
        chVal_digitChar _ (Nat.mod_lt _ (by norm_num))]
      omega

lemma digits10_inj {m n : Nat} (h : digits10 m = digits10 n) : m = n := by
  have hm := digitsVal_digits10 m
  rw [h, digitsVal_digits10 n] at hm
  exact hm.symm

lemma digits10_ne_dash : ∀ n, ∀ c ∈ digits10 n, c ≠ '-' := by
  intro n
  induction n using Nat.strong_induction_on with
  | _ n ih =>
    intro c hc
    by_cases h : n < 10
    · rw [digits10_lt n h] at hc
      simp only [List.mem_singleton] at hc
      subst hc
      exact digitChar_ne_dash n h
    · push_neg at h
      rw [digits10_ge n h] at hc
      rcases List.mem_append.1 hc with h1 | h2
      · exact ih (n / 10) (Nat.div_lt_self (by omega) (by norm_num)) c h1
      · simp only [List.mem_singleton] at h2
        subst h2
        exact digitChar_ne_dash _ (Nat.mod_lt _ (by norm_num))

lemma repr_data (n : Nat) : (Nat.repr n).data = digits10 n := rfl

lemma append_dash_inj : ∀ (t1 t2 c1 c2 : List Char),
    (∀ c ∈ t1, c ≠ '-') → (∀ c ∈ t2, c ≠ '-') →
    t1 ++ '-' :: c1 = t2 ++ '-' :: c2 → c1 = c2 := by
  intro t1
  induction t1 with
  | nil =>
    intro t2 c1 c2 _ h2 h
    cases t2 with
    | nil => simpa using h
    | cons x xs =>
      exfalso
      simp only [List.nil_append, List.cons_append, List.cons.injEq] at h
      exact h2 x (by simp) h.1.symm
  | cons y ys ih =>
    intro t2 c1 c2 h1 h2 h
    cases t2 with
    | nil =>
      exfalso
      simp only [List.nil_append, List.cons_append, List.cons.injEq] at h
      exact h1 y (by simp) h.1
    | cons x xs =>
      simp only [List.cons_append, List.cons.injEq] at h
      exact ih xs c1 c2 (fun c hc => h1 c (by simp [hc]))
        (fun c hc => h2 c (by simp [hc])) h.2

lemma generateBlockId_inj_ctr {t1 c1 t2 c2 : Nat}
    (h : generateBlockId t1 c1 = generateBlockId t2 c2) : c1 = c2 := by
  unfold generateBlockId at h
  have hd := congrArg String.data h
  have hdash : ("-" : String).data = ['-'] := rfl
  simp only [String.data_append, hdash, List.append_assoc,
    List.singleton_append] at hd
  have hmid := List.append_cancel_left hd
  rw [repr_data, repr_data, repr_data, repr_data] at hmid
  have hcc := append_dash_inj (digits10 t1) (digits10 t2)
    (digits10 c1) (digits10 c2) (digits10_ne_dash t1) (digits10_ne_dash t2)
    hmid
  exact digits10_inj hcc

/-! ## Lemmas on the association-list encodings of the JS maps -/

lemma findBlock_cons (x : Block) (xs : List Block) (id : String) :
    findBlock (x :: xs) id = if x.id == id then some x else findBlock xs id := by
  by_cases h : x.id == id <;> simp [findBlock, List.find?_cons, h]

lemma findBlock_mem : ∀ {bs : List Block} {id : String} {b : Block},
    findBlock bs id = some b → b ∈ bs ∧ b.id = id := by
  intro bs
  induction bs with
  | nil => intro id b h; simp [findBlock] at h
  | cons x xs ih =>
    intro id b h
    rw [findBlock_cons] at h
    by_cases hx : x.id == id
    · rw [if_pos hx] at h
      cases h
      exact ⟨List.mem_cons_self x xs, by simpa using hx⟩
    · rw [if_neg hx] at h
      obtain ⟨hmem, hid⟩ := ih h
      exact ⟨List.mem_cons_of_mem x hmem, hid⟩

lemma findBlock_isSome_of_mem : ∀ {bs : List Block} {id : String},
    id ∈ bs.map (·.id) → ∃ b, findBlock bs id = some b := by
  intro bs
  induction bs with
  | nil => intro id h; simp at h
  | cons x xs ih =>
    intro id h
    rw [findBlock_cons]
    by_cases hx : x.id == id
    · exact ⟨x, by rw [if_pos hx]⟩
    · rw [if_neg hx]
      apply ih
      simp only [List.map_cons, List.mem_cons] at h
      rcases h with h | h
      · exact absurd (beq_iff_eq.2 h.symm) hx
      · exact h

lemma findBlock_eq_none : ∀ {bs : List Block} {id : String},
    id ∉ bs.map (·.id) → findBlock bs id = none := by
  intro bs
  induction bs with
  | nil => intro id _; rfl
  | cons x xs ih =>
    intro id h
    simp only [List.map_cons, List.mem_cons, not_or] at h
    rw [findBlock_cons, if_neg (by simpa using fun hx => h.1 hx.symm)]
    exact ih h.2

lemma setBlock_of_not_mem : ∀ {bs : List Block} {id : String} (b : Block),
    id ∉ bs.map (·.id) → setBlock bs id b = bs ++ [b] := by
  intro bs
  induction bs with
  | nil => intro id b _; rfl
  | cons x xs ih =>
    intro id b h
    simp only [List.map_cons, List.mem_cons, not_or] at h
    rw [setBlock, if_neg (by simpa using fun hx => h.1 hx.symm), ih b h.2]
    rfl

lemma keys_setBlock : ∀ {bs : List Block} {id : String} {b : Block},
    id ∈ bs.map (·.id) → b.id = id →
    (setBlock bs id b).map (·.id) = bs.map (·.id) := by
  intro bs
  induction bs with
  | nil => intro id b h _; simp at h
  | cons x xs ih =>
    intro id b h hb
    by_cases hx : x.id == id
    · rw [setBlock, if_pos hx]
      simp only [List.map_cons]
      rw [hb, (beq_iff_eq.1 hx)]
    · rw [setBlock, if_neg hx]
      simp only [List.map_cons] at h ⊢
      rcases List.mem_cons.1 h with h1 | h2
      · exact absurd (beq_iff_eq.2 h1.symm) hx
      · rw [ih h2 hb]

lemma findBlock_setBlock_self : ∀ {bs : List Block} {id : String} {b : Block},
    b.id = id → findBlock (setBlock bs id b) id = some b := by
  intro bs
  induction bs with
  | nil => intro id b hb; simp [setBlock, findBlock_cons, hb]
  | cons x xs ih =>
    intro id b hb
    by_cases hx : x.id == id
    · rw [setBlock, if_pos hx, findBlock_cons, if_pos (beq_iff_eq.2 hb)]
    · rw [setBlock, if_neg hx, findBlock_cons, if_neg hx]
      exact ih hb

lemma findBlock_setBlock_ne : ∀ {bs : List Block} {id id' : String} {b : Block},
    b.id = id → id' ≠ id →
    findBlock (setBlock bs id b) id' = findBlock bs id' := by
  intro bs
  induction bs with
  | nil =>
    intro id id' b hb hne
    simp [setBlock, findBlock_cons, findBlock]
    simpa using fun h => hne (hb ▸ h).symm
  | cons x xs ih =>
    intro id id' b hb hne
    by_cases hx : x.id == id
    · rw [setBlock, if_pos hx, findBlock_cons, findBlock_cons,
        if_neg (by simpa using fun h => hne (hb ▸ h).symm)]
      rw [if_neg (by
        simpa using fun h => hne ((beq_iff_eq.1 hx) ▸ h).symm)]
    · rw [setBlock, if_neg hx, findBlock_cons, findBlock_cons]
      by_cases hx' : x.id == id'
      · rw [if_pos hx', if_pos hx']
      · rw [if_neg hx', if_neg hx']
        exact ih hb hne

lemma mem_setBlock : ∀ {bs : List Block} {id : String} {b x : Block},
    (bs.map (·.id)).Nodup → x ∈ setBlock bs id b →
    x = b ∨ (x ∈ bs ∧ x.id ≠ id) := by
  intro bs
  induction bs with
  | nil =>
    intro id b x _ h
    simp only [setBlock, List.mem_singleton] at h
    exact Or.inl h
  | cons y ys ih =>
    intro id b x hnd h
    simp only [List.map_cons, List.nodup_cons] at hnd
    by_cases hy : y.id == id
    · rw [setBlock, if_pos hy] at h
      rcases List.mem_cons.1 h with h1 | h2
      · exact Or.inl h1
      · refine Or.inr ⟨List.mem_cons_of_mem y h2, fun hx => ?_⟩
        exact hnd.1 (by
          rw [beq_iff_eq.1 hy, ← hx]
          exact List.mem_map_of_mem (·.id) h2)
    · rw [setBlock, if_neg hy] at h
      rcases List.mem_cons.1 h with h1 | h2
      · exact Or.inr ⟨by simp [h1], by
          subst h1
          simpa using hy⟩
      · rcases ih hnd.2 h2 with h3 | h4
        · exact Or.inl h3
        · exact Or.inr ⟨List.mem_cons_of_mem y h4.1, h4.2⟩

lemma mem_setBlock_weak : ∀ {bs : List Block} {id : String} {b x : Block},
    x ∈ setBlock bs id b → x = b ∨ x ∈ bs := by
  intro bs
  induction bs with
  | nil =>
    intro id b x h
    simp only [setBlock, List.mem_singleton] at h
    exact Or.inl h
  | cons y ys ih =>
    intro id b x h
    by_cases hy : y.id == id
    · rw [setBlock, if_pos hy] at h
      rcases List.mem_cons.1 h with h1 | h2
      · exact Or.inl h1
      · exact Or.inr (List.mem_cons_of_mem y h2)
    · rw [setBlock, if_neg hy] at h
      rcases List.mem_cons.1 h with h1 | h2
      · exact Or.inr (by simp [h1])
      · rcases ih h2 with h3 | h4
        · exact Or.inl h3
        · exact Or.inr (List.mem_cons_of_mem y h4)

lemma eraseBlock_sublist : ∀ (bs : List Block) (id : String),
    (eraseBlock bs id).Sublist bs := by
  intro bs
  induction bs with
  | nil => intro id; simp [eraseBlock]
  | cons x xs ih =>
    intro id
    by_cases hx : x.id == id
    · rw [eraseBlock, if_pos hx]
      exact List.sublist_cons_self x xs
    · rw [eraseBlock, if_neg hx]
      exact (ih id).cons₂ x

lemma length_filter_setBlock (p : Block → Bool) :
    ∀ {bs : List Block} {id : String} {old b : Block},
    findBlock bs id = some old → p b = p old →
    ((setBlock bs id b).filter p).length = (bs.filter p).length := by
  intro bs
  induction bs with
  | nil => intro id old b h _; simp [findBlock] at h
  | cons x xs ih =>
    intro id old b h hp
    rw [findBlock_cons] at h
    by_cases hx : x.id == id
    · rw [if_pos hx] at h
      cases h
      rw [setBlock, if_pos hx]
      by_cases hpb : p b
      · rw [List.filter_cons, List.filter_cons, if_pos hpb,
          if_pos (by rw [← hp]; exact hpb)]
        simp
      · rw [List.filter_cons, List.filter_cons,
          if_neg hpb, if_neg (by rw [← hp]; exact hpb)]
    · rw [if_neg hx] at h
      rw [setBlock, if_neg hx]
      by_cases hpx : p x
      · rw [List.filter_cons, List.filter_cons, if_pos hpx, if_pos hpx]
        simpa using ih h hp
      · rw [List.filter_cons, List.filter_cons, if_neg hpx, if_neg hpx]
        exact ih h hp

lemma length_filter_eraseBlock (p : Block → Bool) :
    ∀ {bs : List Block} {id : String} {old : Block},
    findBlock bs id = some old →
    ((eraseBlock bs id).filter p).length + (if p old then 1 else 0) =
      (bs.filter p).length := by
  intro bs
  induction bs with
  | nil => intro id old h; simp [findBlock] at h
  | cons x xs ih =>
    intro id old h
    rw [findBlock_cons] at h
    by_cases hx : x.id == id
    · rw [if_pos hx] at h
      cases h
      rw [eraseBlock, if_pos hx]
      by_cases hpx : p x
      · rw [List.filter_cons, if_pos hpx, if_pos hpx]
        simp
      · rw [List.filter_cons, if_neg hpx, if_neg hpx]
        simp
    · rw [if_neg hx] at h
      rw [eraseBlock, if_neg hx]
      by_cases hpx : p x
      · rw [List.filter_cons, List.filter_cons, if_pos hpx, if_pos hpx]
        simp only [List.length_cons]
        rw [← ih h]
        omega
      · rw [List.filter_cons, List.filter_cons, if_neg hpx, if_neg hpx]
        exact ih h

lemma length_filter_pos (p : Block → Bool) {bs : List Block} {b : Block}
    (hmem : b ∈ bs) (hp : p b = true) : 0 < (bs.filter p).length :=
  List.length_pos_of_mem (List.mem_filter.2 ⟨hmem, hp⟩)

lemma lookupCount_cons (p : String × Nat) (ps : List (String × Nat))
    (t : String) :
    lookupCount (p :: ps) t = if p.1 == t then p.2 else lookupCount ps t := by
  by_cases h : p.1 == t <;> simp [lookupCount, List.find?_cons, h]

lemma lookupCount_setCount_self (cs : List (String × Nat)) (t : String)
    (n : Nat) : lookupCount (setCount cs t n) t = n := by
  induction cs with
  | nil => simp [setCount, lookupCount_cons]
  | cons p ps ih =>
    by_cases hp : p.1 == t
    · rw [setCount, if_pos hp, lookupCount_cons]
      simp
    · rw [setCount, if_neg hp, lookupCount_cons, if_neg hp, ih]

lemma lookupCount_setCount_ne (cs : List (String × Nat)) (t t' : String)
    (n : Nat) (hne : t' ≠ t) :
    lookupCount (setCount cs t n) t' = lookupCount cs t' := by
  have hbe : ((t : String) == t') = false :=
    beq_eq_false_iff_ne.2 (Ne.symm hne)
  induction cs with
  | nil =>
    rw [setCount, lookupCount_cons, if_neg (by simp [hbe])]
  | cons p ps ih =>
    by_cases hp : p.1 == t
    · rw [setCount, if_pos hp, lookupCount_cons, lookupCount_cons]
      rw [if_neg (by simp [hbe]),
        if_neg (by rw [beq_iff_eq.1 hp]; simp [hbe])]
    · rw [setCount, if_neg hp, lookupCount_cons, ih, lookupCount_cons]

lemma length_filter_map (p : Block → Bool) (f : Block → Block) :
    ∀ (bs : List Block), (∀ b ∈ bs, p (f b) = p b) →
    ((bs.map f).filter p).length = (bs.filter p).length := by
  intro bs
  induction bs with
  | nil => intro _; rfl
  | cons x xs ih =>
    intro h
    have hx := h x (List.mem_cons_self x xs)
    simp only [List.map_cons, List.filter_cons]
    by_cases hpx : p x
    · rw [if_pos hpx, if_pos (by rw [hx]; exact hpx)]
      simpa using ih (fun b hb => h b (List.mem_cons_of_mem x hb))
    · rw [if_neg hpx, if_neg (by rw [hx]; exact hpx)]
      exact ih (fun b hb => h b (List.mem_cons_of_mem x hb))

lemma keys_map (f : Block → Block) :
    ∀ (bs : List Block), (∀ b ∈ bs, (f b).id = b.id) →
    (bs.map f).map (·.id) = bs.map (·.id) := by
  intro bs
  induction bs with
  | nil => intro _; rfl
  | cons x xs ih =>
    intro h
    simp only [List.map_cons]
    rw [h x (List.mem_cons_self x xs),
      ih (fun b hb => h b (List.mem_cons_of_mem x hb))]

lemma fresh_id_not_mem (s : Store)
    (hinv : ∀ b ∈ s.blocks, IdWellFormed s.blockIdCounter b) (now : Nat) :
    generateBlockId now (s.blockIdCounter + 1) ∉ blockIds s := by
  intro hmem
  obtain ⟨b, hb, hid⟩ := List.mem_map.1 hmem
  obtain ⟨t, c, _, hcle, hbid⟩ := hinv b hb
  rw [hbid] at hid
  have := generateBlockId_inj_ctr hid
  omega

/-! ## Branch characterizations of the operations -/

lemma addBlock_noConfig (s : Store) (t : String) (now : Nat)
    (hcfg : lookupConfig s.configs t = none) :
    addBlock s t now = (.error ("Config not found for block type: " ++ t), s) := by
  simp only [addBlock, hcfg]

lemma addBlock_limit (s : Store) (t : String) (now : Nat)
    (config : BlockConfig) (hcfg : lookupConfig s.configs t = some config)
    (hlim : limitReached config.maxBlocks (lookupCount s.blockCounts t) = true) :
    addBlock s t now = (.ok none, s) := by
  simp only [addBlock, hcfg, hlim, if_true]

lemma addBlock_invalid (s : Store) (t : String) (now : Nat)
    (config : BlockConfig) (hcfg : lookupConfig s.configs t = some config)
    (hlim : limitReached config.maxBlocks (lookupCount s.blockCounts t) = false)
    (hok : validateDefaultOk config = false) :
    addBlock s t now = (.error "Invalid default data for block",
      { s with blockIdCounter := s.blockIdCounter + 1 }) := by
  simp only [addBlock, hcfg, hlim, Bool.false_eq_true, if_false]
  simp only [validateDefaultOk] at hok
  simp only [hok, Bool.false_eq_true, if_false]

lemma addBlock_success (s : Store) (t : String) (now : Nat)
    (config : BlockConfig) (hcfg : lookupConfig s.configs t = some config)
    (hlim : limitReached config.maxBlocks (lookupCount s.blockCounts t) = false)
    (hok : validateDefaultOk config = true) :
    addBlock s t now = (.ok (some (generateBlockId now (s.blockIdCounter + 1))),
      { s with
          blocks := setBlock s.blocks (generateBlockId now (s.blockIdCounter + 1))
            (newBlockOf s t now config),
          blockCounts := setCount s.blockCounts t (lookupCount s.blockCounts t + 1),
          blockIdCounter := s.blockIdCounter + 1 }) := by
  simp only [addBlock, hcfg, hlim, Bool.false_eq_true, if_false]
  simp only [validateDefaultOk] at hok
  simp only [hok, if_true, newBlockOf]

lemma removeBlock_notFound (s : Store) (id : String)
    (hf : findBlock s.blocks id = none) : removeBlock s id = s := by
  simp only [removeBlock, hf]

lemma removeBlock_found (s : Store) (id : String) (block : Block)
    (hf : findBlock s.blocks id = some block) :
    removeBlock s id =
      { s with
          blocks := eraseBlock s.blocks id,
          blockCounts :=
            if lookupCount s.blockCounts block.type > 0 then
              setCount s.blockCounts block.type
                (lookupCount s.blockCounts block.type - 1)
            else s.blockCounts,
          editingBlockId :=
            if s.editingBlockId == some id then none else s.editingBlockId } := by
  simp only [removeBlock, hf]

lemma saveBlockCheck_ok {s : Store} {id : String} {b : Block}
    (h : saveBlockCheck s id = .ok b) : findBlock s.blocks id = some b := by
  unfold saveBlockCheck at h
  split at h
  · exact Except.noConfusion h
  · rename_i blk heq
    split at h
    · exact Except.noConfusion h
    · split at h
      · cases h; exact heq
      · split at h
        · cases h; exact heq
        · exact Except.noConfusion h

/-! ## Preservation of the reachable-state invariant -/

lemma StoreInv_initial : StoreInv initialStore := by
  refine ⟨List.nodup_nil, ?_, ?_⟩
  · intro b hb; cases hb
  · intro t; rfl

lemma StoreInv_replace (s : Store) (id : String) (old b : Block)
    (e : Option String) (hf : findBlock s.blocks id = some old)
    (hid : b.id = old.id) (htype : b.type = old.type) (h : StoreInv s) :
    StoreInv { s with blocks := setBlock s.blocks id b, editingBlockId := e } := by
  obtain ⟨hnd, hwf, hcnt⟩ := h
  obtain ⟨hmem, holdid⟩ := findBlock_mem hf
  have hbid : b.id = id := by rw [hid, holdid]
  have hkey : id ∈ s.blocks.map (·.id) := by
    rw [← holdid]
    exact List.mem_map_of_mem (·.id) hmem
  have hkeys : (setBlock s.blocks id b).map (·.id) = s.blocks.map (·.id) :=
    keys_setBlock hkey hbid
  refine ⟨?_, ?_, ?_⟩
  · show ((setBlock s.blocks id b).map (·.id)).Nodup
    rw [hkeys]; exact hnd
  · intro x hx
    rcases mem_setBlock_weak hx with h1 | h2
    · subst h1
      obtain ⟨t, c, hc0, hcle, hbid'⟩ := hwf old hmem
      exact ⟨t, c, hc0, hcle, by rw [hid, hbid']⟩
    · exact hwf x h2
  · intro t
    show lookupCount s.blockCounts t =
      ((setBlock s.blocks id b).filter (fun x => x.type == t)).length
    rw [length_filter_setBlock _ hf (by rw [htype])]
    exact hcnt t

lemma StoreInv_registerConfig (s : Store) (c : BlockConfig)
    (h : StoreInv s) : StoreInv (registerConfig s c) := h

lemma StoreInv_unregisterConfig (s : Store) (t : String)
    (h : StoreInv s) : StoreInv (unregisterConfig s t) := h

lemma StoreInv_addBlock (s : Store) (t : String) (now : Nat)
    (h : StoreInv s) : StoreInv (addBlock s t now).2 := by
  obtain ⟨hnd, hwf, hcnt⟩ := h
  cases hcfg : lookupConfig s.configs t with
  | none => rw [addBlock_noConfig s t now hcfg]; exact ⟨hnd, hwf, hcnt⟩
  | some config =>
    by_cases hlim :
        limitReached config.maxBlocks (lookupCount s.blockCounts t) = true
    · rw [addBlock_limit s t now config hcfg hlim]; exact ⟨hnd, hwf, hcnt⟩
    · rw [Bool.not_eq_true] at hlim
      by_cases hok : validateDefaultOk config = true
      · rw [addBlock_success s t now config hcfg hlim hok]
        show StoreInv { s with
          blocks := setBlock s.blocks (generateBlockId now (s.blockIdCounter + 1))
            (newBlockOf s t now config),
          blockCounts := setCount s.blockCounts t (lookupCount s.blockCounts t + 1),
          blockIdCounter := s.blockIdCounter + 1 }
        have hfresh := fresh_id_not_mem s hwf now
        have happ := setBlock_of_not_mem (newBlockOf s t now config) hfresh
        refine ⟨?_, ?_, ?_⟩
        · show ((setBlock s.blocks _ _).map (·.id)).Nodup
          rw [happ, List.map_append]
          rw [List.nodup_append]
          refine ⟨hnd, List.nodup_singleton _, ?_⟩
          intro a ha hb
          rw [List.mem_map] at hb
          obtain ⟨x, hx, hxa⟩ := hb
          rw [List.mem_singleton] at hx
          subst hx
          apply hfresh
          rw [← hxa] at ha
          exact ha
        · intro x hx
          show IdWellFormed (s.blockIdCounter + 1) x
          rw [happ] at hx
          rcases List.mem_append.1 hx with h1 | h2
          · obtain ⟨t', c, hc0, hcle, hbid⟩ := hwf x h1
            exact ⟨t', c, hc0, by omega, hbid⟩
          · rw [List.mem_singleton] at h2
            subst h2
            exact ⟨now, s.blockIdCounter + 1, by omega, le_refl _, rfl⟩
        · intro t'
          show lookupCount (setCount s.blockCounts t
              (lookupCount s.blockCounts t + 1)) t' =
            ((setBlock s.blocks (generateBlockId now (s.blockIdCounter + 1))
              (newBlockOf s t now config)).filter
                (fun b => b.type == t')).length
          rw [happ, List.filter_append, List.length_append]
          have hc := hcnt t'
          unfold countOfType at hc
          by_cases ht : t' = t
          · subst ht
            rw [lookupCount_setCount_self]
            have hnb : ((newBlockOf s t' now config).type == t') = true := by
              rw [show (newBlockOf s t' now config).type = t' from rfl]
              exact beq_self_eq_true t'
            simp only [List.filter_cons, hnb, if_true, List.filter_nil,
              List.length_cons, List.length_nil]
            omega
          · rw [lookupCount_setCount_ne _ _ _ _ ht]
            have hnb : ((newBlockOf s t now config).type == t') = false := by
              rw [show (newBlockOf s t now config).type = t from rfl]
              exact beq_eq_false_iff_ne.2 (fun hh => ht hh.symm)
            simp only [List.filter_cons, hnb, Bool.false_eq_true, if_false,
              List.filter_nil, List.length_nil]
            omega
      · rw [Bool.not_eq_true] at hok
        rw [addBlock_invalid s t now config hcfg hlim hok]
        show StoreInv { s with blockIdCounter := s.blockIdCounter + 1 }
        refine ⟨hnd, ?_, hcnt⟩
        intro x hx
        show IdWellFormed (s.blockIdCounter + 1) x
        obtain ⟨t', c, hc0, hcle, hbid⟩ := hwf x hx
        exact ⟨t', c, hc0, by omega, hbid⟩

lemma StoreInv_removeBlock (s : Store) (id : String)
    (h : StoreInv s) : StoreInv (removeBlock s id) := by
  obtain ⟨hnd, hwf, hcnt⟩ := h
  cases hf : findBlock s.blocks id with
  | none => rw [removeBlock_notFound s id hf]; exact ⟨hnd, hwf, hcnt⟩
  | some block =>
    rw [removeBlock_found s id block hf]
    obtain ⟨hmem, hbid⟩ := findBlock_mem hf
    have hsub := eraseBlock_sublist s.blocks id
    refine ⟨?_, ?_, ?_⟩
    · show ((eraseBlock s.blocks id).map (·.id)).Nodup
      exact List.Nodup.sublist (hsub.map (·.id)) hnd
    · intro x hx
      exact hwf x (hsub.subset hx)
    · intro t'
      show lookupCount
          (if lookupCount s.blockCounts block.type > 0 then
            setCount s.blockCounts block.type
              (lookupCount s.blockCounts block.type - 1)
          else s.blockCounts) t' =
        ((eraseBlock s.blocks id).filter (fun b => b.type == t')).length
      have herase := length_filter_eraseBlock (fun b => b.type == t') hf
      have hc := hcnt t'
      unfold countOfType at hc
      by_cases ht : t' = block.type
      · subst ht
        have hc2 := hcnt block.type
        unfold countOfType at hc2
        have hpos : 0 < lookupCount s.blockCounts block.type := by
          rw [hc2]
          exact length_filter_pos _ hmem (beq_self_eq_true _)
        rw [if_pos hpos, lookupCount_setCount_self]
        simp only [beq_self_eq_true, if_true] at herase
        omega
      · have hne : (block.type == t') = false :=
          beq_eq_false_iff_ne.2 (fun hh => ht hh.symm)
        simp only [hne, Bool.false_eq_true, if_false, Nat.add_zero] at herase
        by_cases hp : lookupCount s.blockCounts block.type > 0
        · rw [if_pos hp, lookupCount_setCount_ne _ _ _ _ ht]
          omega
        · rw [if_neg hp]
          omega

lemma StoreInv_updateBlockData (s : Store) (id : String) (d : BlockData)
    (now : Nat) (h : StoreInv s) : StoreInv (updateBlockData s id d now) := by
  cases hf : findBlock s.blocks id with
  | none => simp only [updateBlockData, hf]; exact h
  | some block =>
    simp only [updateBlockData, hf]
    exact StoreInv_replace s id block _ s.editingBlockId hf rfl rfl h

lemma moveShift_fields (id : String) (o n : Int) (now : Nat) (b : Block) :
    (moveShift id o n now b).id = b.id ∧
    (moveShift id o n now b).type = b.type ∧
    (moveShift id o n now b).data = b.data ∧
    (moveShift id o n now b).state = b.state ∧
    (moveShift id o n now b).isEditing = b.isEditing ∧
    (moveShift id o n now b).createdAt = b.createdAt ∧
    (moveShift id o n now b).savedAt = b.savedAt := by
  unfold moveShift
  split_ifs <;> exact ⟨rfl, rfl, rfl, rfl, rfl, rfl, rfl⟩

lemma StoreInv_moveBlock (s : Store) (id : String) (newOrder : Int)
    (now : Nat) (h : StoreInv s) : StoreInv (moveBlock s id newOrder now) := by
  obtain ⟨hnd, hwf, hcnt⟩ := h
  cases hf : findBlock s.blocks id with
  | none => simp only [moveBlock, hf]; exact ⟨hnd, hwf, hcnt⟩
  | some block =>
    simp only [moveBlock, hf]
    set f := moveShift id block.order newOrder now with hfdef
    have hkeys : (s.blocks.map f).map (·.id) = s.blocks.map (·.id) :=
      keys_map f s.blocks (fun b _ => (moveShift_fields id _ _ now b).1)
    refine ⟨?_, ?_, ?_⟩
    · show ((s.blocks.map f).map (·.id)).Nodup
      rw [hkeys]; exact hnd
    · intro x hx
      obtain ⟨b, hb, hfb⟩ := List.mem_map.1 hx
      subst hfb
      obtain ⟨t', c, hc0, hcle, hbid⟩ := hwf b hb
      exact ⟨t', c, hc0, hcle, by
        rw [(moveShift_fields id _ _ now b).1, hbid]⟩
    · intro t'
      show lookupCount s.blockCounts t' =
        ((s.blocks.map f).filter (fun x => x.type == t')).length
      rw [length_filter_map _ f s.blocks (fun b _ => by
        rw [(moveShift_fields id _ _ now b).2.1])]
      exact hcnt t'

lemma StoreInv_enableBlockEdit (s : Store) (id : String)
    (h : StoreInv s) : StoreInv (enableBlockEdit s id) := by
  cases hf : findBlock s.blocks id with
  | none => simp only [enableBlockEdit, hf]; exact h
  | some block =>
    cases he : s.editingBlockId with
    | none =>
      simp only [enableBlockEdit, hf, he]
      exact StoreInv_replace s id block _ (some id) hf rfl rfl h
    | some eid =>
      by_cases hg : (eid != "" && eid != id) = true
      · cases hfe : findBlock s.blocks eid with
        | none =>
          simp only [enableBlockEdit, hf, he, hg, if_true, hfe]
          exact StoreInv_replace s id block _ (some id) hf rfl rfl h
        | some eb =>
          simp only [enableBlockEdit, hf, he, hg, if_true, hfe]
          have h1 : StoreInv { s with
              blocks := setBlock s.blocks eid { eb with isEditing := false },
              editingBlockId := s.editingBlockId } :=
            StoreInv_replace s eid eb _ s.editingBlockId hfe rfl rfl h
          have heid : eid ≠ id := by
            have hg2 := hg
            simp only [Bool.and_eq_true, bne_iff_ne] at hg2
            exact hg2.2
          have hf1 : findBlock (setBlock s.blocks eid
              { eb with isEditing := false }) id = some block := by
            rw [findBlock_setBlock_ne (by
              show ({ eb with isEditing := false } : Block).id = eid
              exact (findBlock_mem hfe).2) (fun hh => heid hh.symm)]
            exact hf
          exact StoreInv_replace { s with
              blocks := setBlock s.blocks eid { eb with isEditing := false },
              editingBlockId := s.editingBlockId }
            id block _ (some id) hf1 rfl rfl h1
      · rw [Bool.not_eq_true] at hg
        simp only [enableBlockEdit, hf, he, hg, Bool.false_eq_true, if_false]
        exact StoreInv_replace s id block _ (some id) hf rfl rfl h

lemma StoreInv_disableBlockEdit (s : Store) (id : String)
    (h : StoreInv s) : StoreInv (disableBlockEdit s id) := by
  cases hf : findBlock s.blocks id with
  | none => simp only [disableBlockEdit, hf]; exact h
  | some block =>
    simp only [disableBlockEdit, hf]
    exact StoreInv_replace s id block _ _ hf rfl rfl h

lemma StoreInv_saveBlock (s : Store) (id : String) (now : Nat)
    (h : StoreInv s) : StoreInv (saveBlock s id now).2 := by
  unfold saveBlock
  cases hc : saveBlockCheck s id with
  | error e => exact h
  | ok block =>
    have hf := saveBlockCheck_ok hc
    exact StoreInv_replace s id block _ _ hf rfl rfl h

lemma StoreInv_applyOp (s : Store) (op : Op) (h : StoreInv s) :
    StoreInv (applyOp s op) := by
  cases op with
  | registerConfig c => exact StoreInv_registerConfig s c h
  | unregisterConfig t => exact StoreInv_unregisterConfig s t h
  | addBlock t now => exact StoreInv_addBlock s t now h
  | removeBlock id => exact StoreInv_removeBlock s id h
  | updateBlockData id d now => exact StoreInv_updateBlockData s id d now h
  | moveBlock id newOrder now => exact StoreInv_moveBlock s id newOrder now h
  | enableBlockEdit id => exact StoreInv_enableBlockEdit s id h
  | disableBlockEdit id => exact StoreInv_disableBlockEdit s id h
  | saveBlock id now => exact StoreInv_saveBlock s id now h

lemma StoreInv_runOps_from (ops : List Op) : ∀ (s : Store), StoreInv s →
    StoreInv (runOps s ops) := by
  induction ops with
  | nil => intro s h; exact h
  | cons op rest ih =>
    intro s h
    exact ih (applyOp s op) (StoreInv_applyOp s op h)

lemma StoreInv_runOps (ops : List Op) : StoreInv (runOps initialStore ops) :=
  StoreInv_runOps_from ops initialStore StoreInv_initial

/-! ## Global density of order values under add-only sequences -/

lemma foldl_max_perm {l1 l2 : List Int} (h : l1.Perm l2) (a : Int) :
    l1.foldl max a = l2.foldl max a := by
  haveI : RightCommutative (fun (m : Int) (b : Int) => max m b) :=
    ⟨fun b a1 a2 => by rw [max_assoc, max_comm a1 a2, ← max_assoc]⟩
  exact List.Perm.foldl_eq h a

lemma foldl_max_range (n : Nat) :
    ((List.range n).map Int.ofNat).foldl max (-1) = Int.ofNat n - 1 := by
  induction n with
  | zero => simp
  | succ m ih =>
    rw [List.range_succ, List.map_append, List.foldl_append, ih]
    simp only [List.map_cons, List.map_nil, List.foldl_cons, List.foldl_nil]
    rw [max_eq_right (by omega)]
    simp [Int.ofNat_succ]

lemma maxOrder_of_dense (s : Store) (hd : OrdersDense s) :
    s.blocks.foldl (fun m b => max m b.order) (-1) =
      Int.ofNat s.blocks.length - 1 := by
  have h1 : s.blocks.foldl (fun m b => max m b.order) (-1) =
      (ordersOf s).foldl max (-1) := by
    rw [ordersOf, List.foldl_map]
  rw [h1, foldl_max_perm hd (-1), foldl_max_range]

lemma OrdersDense_registerConfig (s : Store) (c : BlockConfig)
    (hd : OrdersDense s) : OrdersDense (registerConfig s c) := hd

lemma OrdersDense_addBlock (s : Store) (t : String) (now : Nat)
    (hwf : ∀ b ∈ s.blocks, IdWellFormed s.blockIdCounter b)
    (hd : OrdersDense s) : OrdersDense (addBlock s t now).2 := by
  cases hcfg : lookupConfig s.configs t with
  | none => rw [addBlock_noConfig s t now hcfg]; exact hd
  | some config =>
    by_cases hlim :
        limitReached config.maxBlocks (lookupCount s.blockCounts t) = true
    · rw [addBlock_limit s t now config hcfg hlim]; exact hd
    · rw [Bool.not_eq_true] at hlim
      by_cases hok : validateDefaultOk config = true
      · rw [addBlock_success s t now config hcfg hlim hok]
        have hfresh := fresh_id_not_mem s hwf now
        have happ := setBlock_of_not_mem (newBlockOf s t now config) hfresh
        show ((setBlock s.blocks (generateBlockId now (s.blockIdCounter + 1))
            (newBlockOf s t now config)).map (·.order)).Perm
          ((List.range (setBlock s.blocks
            (generateBlockId now (s.blockIdCounter + 1))
            (newBlockOf s t now config)).length).map Int.ofNat)
        rw [happ, List.map_append, List.length_append]
        simp only [List.map_cons, List.map_nil, List.length_cons,
          List.length_nil]
        rw [show (newBlockOf s t now config).order =
          s.blocks.foldl (fun m b => max m b.order) (-1) + 1 from rfl]
        rw [maxOrder_of_dense s hd]
        rw [show Int.ofNat s.blocks.length - 1 + 1 =
          Int.ofNat s.blocks.length by omega]
        rw [show s.blocks.length + (0 + 1) = s.blocks.length + 1 by omega]
        rw [List.range_succ, List.map_append]
        simp only [List.map_cons, List.map_nil]
        exact hd.append_right _
      · rw [Bool.not_eq_true] at hok
        rw [addBlock_invalid s t now config hcfg hlim hok]
        exact hd

lemma OrdersDense_initial : OrdersDense initialStore := List.Perm.refl _

lemma addLike_runOps (ops : List Op) (h : ops.all Op.isAddLike = true) :
    ∀ (s : Store), StoreInv s → OrdersDense s →
    StoreInv (runOps s ops) ∧ OrdersDense (runOps s ops) := by
  induction ops with
  | nil => intro s hinv hd; exact ⟨hinv, hd⟩
  | cons op rest ih =>
    intro s hinv hd
    rw [List.all_cons, Bool.and_eq_true] at h
    have hstep : StoreInv (applyOp s op) ∧ OrdersDense (applyOp s op) := by
      cases op with
      | registerConfig c =>
        exact ⟨StoreInv_registerConfig s c hinv,
          OrdersDense_registerConfig s c hd⟩
      | addBlock t now =>
        exact ⟨StoreInv_addBlock s t now hinv,
          OrdersDense_addBlock s t now hinv.2.1 hd⟩
      | unregisterConfig t => simp [Op.isAddLike] at h
      | removeBlock id => simp [Op.isAddLike] at h
      | updateBlockData id d now => simp [Op.isAddLike] at h
      | moveBlock id newOrder now => simp [Op.isAddLike] at h
      | enableBlockEdit id => simp [Op.isAddLike] at h
      | disableBlockEdit id => simp [Op.isAddLike] at h
      | saveBlock id now => simp [Op.isAddLike] at h
    exact ih h.2 (applyOp s op) hstep.1 hstep.2

/-! ## Pointwise facts about the move update -/

lemma moveShift_order_moved (id : String) (o n : Int) (now : Nat) (c : Block)
    (h : c.id = id) : (moveShift id o n now c).order = n := by
  simp [moveShift, h]

lemma moveShift_order_shift_down (id : String) (o n : Int) (now : Nat)
    (c : Block) (hcid : c.id ≠ id) (ho : o < n) (h1 : o < c.order)
    (h2 : c.order ≤ n) : (moveShift id o n now c).order = c.order - 1 := by
  have hb : (c.id == id) = false := beq_eq_false_iff_ne.2 hcid
  simp [moveShift, hb, ho, h1, h2]

lemma moveShift_updatedAt_moved (id : String) (o n : Int) (now : Nat)
    (c : Block) (h : c.id = id) : (moveShift id o n now c).updatedAt = now := by
  simp [moveShift, h]

lemma moveShift_updatedAt_other (id : String) (o n : Int) (now : Nat)
    (c : Block) (h : c.id ≠ id) :
    (moveShift id o n now c).updatedAt = c.updatedAt := by
  have hb : (c.id == id) = false := beq_eq_false_iff_ne.2 h
  unfold moveShift
  rw [if_neg (by simp [hb])]
  split_ifs <;> rfl

/-! ## The claims -/

/-- C1, counterexample: the spec's per-type order-density invariant fails on
the code.  The reachable state `mixedTypesStore` (two types registered, one
block added of each) has one live block of type `"b"`, yet the order values
among blocks of type `"b"` are `{1}`, not `{0}`: `addBlock` numbers orders
globally across all types. -/
theorem perType_order_density_fails_on_mixed_types :
    countOfType mixedTypesStore "b" = 1 ∧
    perTypeOrdersDense mixedTypesStore "b" = false := by
  decide

/-- C1, amended: for every sequence of `registerConfig`/`addBlock`
operations from the empty store, the order values among all existing blocks
(the whole store, not one type) are exactly `{0, ..., total-1}`. -/
theorem orders_globally_dense_after_add_only (ops : List Op)
    (h : ops.all Op.isAddLike = true) :
    (ordersOf (runOps initialStore ops)).Perm
      ((List.range (runOps initialStore ops).blocks.length).map Int.ofNat) :=
  (addLike_runOps ops h initialStore StoreInv_initial OrdersDense_initial).2

/-- Witness for the amended C1 at a concrete add-only sequence. -/
theorem orders_globally_dense_after_add_only_witness :
    (ordersOf (runOps initialStore
      [.registerConfig cfgA, .registerConfig cfgB, .addBlock "a" 0,
       .addBlock "b" 1])).Perm
      ((List.range (runOps initialStore
        [.registerConfig cfgA, .registerConfig cfgB, .addBlock "a" 0,
         .addBlock "b" 1]).blocks.length).map Int.ofNat) :=
  orders_globally_dense_after_add_only
    [.registerConfig cfgA, .registerConfig cfgB, .addBlock "a" 0,
     .addBlock "b" 1] (by rfl)

/-- C8: after every operation sequence from the empty store, the per-type
counter in `blockCounts` equals the number of blocks of that type actually
present in the collection (stated for all operations, which subsumes the
claimed `addBlock`/`removeBlock` sequences). -/
theorem blockCounts_match_live_blocks (ops : List Op) (t : String) :
    lookupCount (runOps initialStore ops).blockCounts t =
      countOfType (runOps initialStore ops) t :=
  (StoreInv_runOps ops).2.2 t

/-- C5: `saveBlock` on a nonexistent id rejects with an error and leaves
the whole store unchanged; when the registered validator rejects the
block's current data, `saveBlock` rejects and the whole store is likewise
unchanged. -/
theorem saveBlock_error_paths_leave_store_unchanged (s : Store) (id : String)
    (now : Nat) :
    (findBlock s.blocks id = none →
      saveBlock s id now = (.error "Block or config not found", s)) ∧
    (∀ b cfg v, findBlock s.blocks id = some b →
      lookupConfig s.configs b.type = some cfg →
      cfg.validate = some v → v b.data = false →
      saveBlock s id now = (.error "Block data validation failed", s)) := by
  constructor
  · intro hf
    have hc : saveBlockCheck s id = .error "Block or config not found" := by
      simp only [saveBlockCheck, hf]
    simp only [saveBlock, hc]
  · intro b cfg v hf hcfg hv hd
    have hc : saveBlockCheck s id = .error "Block data validation failed" := by
      simp only [saveBlockCheck, hf, hcfg, hv, hd, Bool.false_eq_true,
        if_false]
    simp only [saveBlock, hc]

/-- Witness for C5: rejecting a missing id and a validator-rejected block
on the concrete `rejectedStore`. -/
theorem saveBlock_error_paths_witness :
    saveBlock rejectedStore "nope" 3 =
      (.error "Block or config not found", rejectedStore) ∧
    saveBlock rejectedStore "v1" 3 =
      (.error "Block data validation failed", rejectedStore) :=
  ⟨(saveBlock_error_paths_leave_store_unchanged rejectedStore "nope" 3).1 rfl,
   (saveBlock_error_paths_leave_store_unchanged rejectedStore "v1" 3).2
     { mkBlock "v1" "v" 1 0 with state := .dirty, isEditing := true }
     cfgVal (fun d => d == 0) rfl rfl rfl rfl⟩

/-- C6: moving an existing block to a strictly higher order sets the moved
block's order to exactly `newOrder` and decreases by one the order of every
other block whose prior order lies in `(oldOrder, newOrder]`; in
particular, on the three-block store with orders `0, 1, 2`, moving the
order-0 block to `2` yields orders `2, 0, 1` in insertion order. -/
theorem moveBlock_shift_on_move (s : Store) (id : String) (b : Block)
    (newOrder : Int) (now : Nat) (hf : findBlock s.blocks id = some b)
    (hlt : b.order < newOrder) :
    (moveBlock s id newOrder now).blocks =
      s.blocks.map (moveShift id b.order newOrder now) ∧
    (s.blocks.all (fun c => decide (
      (c.id = id → (moveShift id b.order newOrder now c).order = newOrder) ∧
      (c.id ≠ id → b.order < c.order → c.order ≤ newOrder →
        (moveShift id b.order newOrder now c).order = c.order - 1)))) = true ∧
    (moveBlock threeBlockStore "x" 2 9).blocks.map (·.order) = [2, 0, 1] := by
  refine ⟨?_, ?_, by decide⟩
  · simp only [moveBlock, hf]
  · rw [List.all_eq_true]
    intro c _
    rw [decide_eq_true_eq]
    exact ⟨fun hcid => moveShift_order_moved id b.order newOrder now c hcid,
      fun hcid h1 h2 =>
        moveShift_order_shift_down id b.order newOrder now c hcid hlt h1 h2⟩

/-- Witness for C6 on the concrete three-block store. -/
theorem moveBlock_shift_on_move_witness :
    (moveBlock threeBlockStore "x" 2 9).blocks =
      threeBlockStore.blocks.map
        (moveShift "x" (mkBlock "x" "a" 0 0).order 2 9) ∧
    (threeBlockStore.blocks.all (fun c => decide (
      (c.id = "x" →
        (moveShift "x" (mkBlock "x" "a" 0 0).order 2 9 c).order = 2) ∧
      (c.id ≠ "x" → (mkBlock "x" "a" 0 0).order < c.order → c.order ≤ 2 →
        (moveShift "x" (mkBlock "x" "a" 0 0).order 2 9 c).order =
          c.order - 1)))) = true ∧
    (moveBlock threeBlockStore "x" 2 9).blocks.map (·.order) = [2, 0, 1] :=
  moveBlock_shift_on_move threeBlockStore "x" (mkBlock "x" "a" 0 0) 2 9
    rfl (by decide)

/-- C7: `updateBlockData` on an existing block replaces its data wholesale,
sets `state = dirty` unconditionally and refreshes `updatedAt`; a
successful `saveBlock` leaves the block with `state = clean`,
`isEditing = false` and a defined `savedAt`. -/
theorem updateBlockData_dirty_and_saveBlock_clean (s : Store) (id : String)
    (d : BlockData) (now : Nat) (b : Block)
    (hf : findBlock s.blocks id = some b) :
    findBlock (updateBlockData s id d now).blocks id =
      some { b with data := d, state := .dirty, updatedAt := now } ∧
    ((saveBlock s id now).1 = .ok () →
      findBlock (saveBlock s id now).2.blocks id =
        some { b with state := .clean, isEditing := false,
                      updatedAt := now, savedAt := some now }) := by
  have hbid := (findBlock_mem hf).2
  constructor
  · simp only [updateBlockData, hf]
    exact findBlock_setBlock_self hbid
  · intro hok
    cases hc : saveBlockCheck s id with
    | error e =>
      simp only [saveBlock, hc] at hok
      exact Except.noConfusion hok
    | ok blk =>
      have hfb := saveBlockCheck_ok hc
      have hbe : blk = b := by
        rw [hfb] at hf
        exact Option.some.inj hf
      subst hbe
      simp only [saveBlock, hc]
      show findBlock (setBlock s.blocks id
        { blk with state := .clean, isEditing := false,
                   updatedAt := now, savedAt := some now }) id = some _
      exact findBlock_setBlock_self hbid

/-- Witness for C7 on the concrete three-block store. -/
theorem updateBlockData_dirty_and_saveBlock_clean_witness :
    findBlock (updateBlockData threeBlockStore "x" 5 7).blocks "x" =
      some { mkBlock "x" "a" 0 0 with
               data := 5, state := .dirty, updatedAt := 7 } ∧
    ((saveBlock threeBlockStore "x" 7).1 = .ok () →
      findBlock (saveBlock threeBlockStore "x" 7).2.blocks "x" =
        some { mkBlock "x" "a" 0 0 with
                 state := .clean, isEditing := false,
                 updatedAt := 7, savedAt := some 7 }) :=
  updateBlockData_dirty_and_saveBlock_clean threeBlockStore "x" 5 7
    (mkBlock "x" "a" 0 0) rfl

/-- C9: a configuration registered with `maxBlocks = 0` is treated as
unlimited because of the truthiness check: `canAddBlock` returns `true` and
`addBlock` never returns the `null` sentinel, whatever the current count. -/
theorem maxBlocks_zero_treated_as_no_limit (s : Store) (t : String)
    (cfg : BlockConfig) (now : Nat)
    (hcfg : lookupConfig s.configs t = some cfg)
    (h0 : cfg.maxBlocks = some 0) :
    canAddBlock s t = true ∧ (addBlock s t now).1 ≠ .ok none := by
  have hlim : limitReached cfg.maxBlocks (lookupCount s.blockCounts t) =
      false := by
    rw [h0]; rfl
  constructor
  · simp only [canAddBlock, hcfg, h0]
    rfl
  · by_cases hok : validateDefaultOk cfg = true
    · rw [addBlock_success s t now cfg hcfg hlim hok]
      intro hcontra
      exact Option.noConfusion (Except.ok.inj hcontra)
    · rw [Bool.not_eq_true] at hok
      rw [addBlock_invalid s t now cfg hcfg hlim hok]
      intro hcontra
      exact Except.noConfusion hcontra

/-- Witness for C9 with the concrete `maxBlocks = 0` config. -/
theorem maxBlocks_zero_treated_as_no_limit_witness :
    canAddBlock (registerConfig initialStore cfgZero) "z" = true ∧
    (addBlock (registerConfig initialStore cfgZero) "z" 0).1 ≠ .ok none :=
  maxBlocks_zero_treated_as_no_limit (registerConfig initialStore cfgZero)
    "z" cfgZero 0 rfl rfl

/-- C10: `moveBlock` on an existing block only rewrites `blocks`, and only
the order fields and the moved block's `updatedAt` within it: every block
keeps its `id`, `type`, `data`, `state`, `isEditing`, `createdAt` and
`savedAt`, non-moved blocks keep their `updatedAt`, and the configs map,
the counts map, the editing pointer and the id counter are unchanged. -/
theorem moveBlock_frame (s : Store) (id : String) (b : Block)
    (newOrder : Int) (now : Nat) (hf : findBlock s.blocks id = some b) :
    (moveBlock s id newOrder now).configs = s.configs ∧
    (moveBlock s id newOrder now).blockCounts = s.blockCounts ∧
    (moveBlock s id newOrder now).editingBlockId = s.editingBlockId ∧
    (moveBlock s id newOrder now).blockIdCounter = s.blockIdCounter ∧
    (moveBlock s id newOrder now).blocks =
      s.blocks.map (moveShift id b.order newOrder now) ∧
    (s.blocks.all (fun c => decide (
      (moveShift id b.order newOrder now c).id = c.id ∧
      (moveShift id b.order newOrder now c).type = c.type ∧
      (moveShift id b.order newOrder now c).data = c.data ∧
      (moveShift id b.order newOrder now c).state = c.state ∧
      (moveShift id b.order newOrder now c).isEditing = c.isEditing ∧
      (moveShift id b.order newOrder now c).createdAt = c.createdAt ∧
      (moveShift id b.order newOrder now c).savedAt = c.savedAt ∧
      (c.id = id → (moveShift id b.order newOrder now c).updatedAt = now) ∧
      (c.id ≠ id →
        (moveShift id b.order newOrder now c).updatedAt = c.updatedAt)))) =
      true := by
  refine ⟨by simp only [moveBlock, hf], by simp only [moveBlock, hf],
    by simp only [moveBlock, hf], by simp only [moveBlock, hf],
    by simp only [moveBlock, hf], ?_⟩
  rw [List.all_eq_true]
  intro c _
  rw [decide_eq_true_eq]
  obtain ⟨f1, f2, f3, f4, f5, f6, f7⟩ :=
    moveShift_fields id b.order newOrder now c
  exact ⟨f1, f2, f3, f4, f5, f6, f7,
    fun hcid => moveShift_updatedAt_moved id b.order newOrder now c hcid,
    fun hcid => moveShift_updatedAt_other id b.order newOrder now c hcid⟩

/-- Witness for C10 on the concrete three-block store. -/
theorem moveBlock_frame_witness :
    (moveBlock threeBlockStore "x" 2 9).configs = threeBlockStore.configs ∧
    (moveBlock threeBlockStore "x" 2 9).blockCounts =
      threeBlockStore.blockCounts ∧
    (moveBlock threeBlockStore "x" 2 9).editingBlockId =
      threeBlockStore.editingBlockId ∧
    (moveBlock threeBlockStore "x" 2 9).blockIdCounter =
      threeBlockStore.blockIdCounter ∧
    (moveBlock threeBlockStore "x" 2 9).blocks =
      threeBlockStore.blocks.map
        (moveShift "x" (mkBlock "x" "a" 0 0).order 2 9) ∧
    (threeBlockStore.blocks.all (fun c => decide (
      (moveShift "x" (mkBlock "x" "a" 0 0).order 2 9 c).id = c.id ∧
      (moveShift "x" (mkBlock "x" "a" 0 0).order 2 9 c).type = c.type ∧
      (moveShift "x" (mkBlock "x" "a" 0 0).order 2 9 c).data = c.data ∧
      (moveShift "x" (mkBlock "x" "a" 0 0).order 2 9 c).state = c.state ∧
      (moveShift "x" (mkBlock "x" "a" 0 0).order 2 9 c).isEditing =
        c.isEditing ∧
      (moveShift "x" (mkBlock "x" "a" 0 0).order 2 9 c).createdAt =
        c.createdAt ∧
      (moveShift "x" (mkBlock "x" "a" 0 0).order 2 9 c).savedAt =
        c.savedAt ∧
      (c.id = "x" →
        (moveShift "x" (mkBlock "x" "a" 0 0).order 2 9 c).updatedAt = 9) ∧
      (c.id ≠ "x" →
        (moveShift "x" (mkBlock "x" "a" 0 0).order 2 9 c).updatedAt =
          c.updatedAt)))) = true :=
  moveBlock_frame threeBlockStore "x" (mkBlock "x" "a" 0 0) 2 9 rfl

/-! ## The capacity limit -/

lemma addBlocksRun_spec (t : String) (cfg : BlockConfig) (N : Nat)
    (hmax : cfg.maxBlocks = some N) (hN : 0 < N)
    (hok : validateDefaultOk cfg = true) :
    ∀ (nows : List Nat) (s : Store) (c : Nat),
    lookupConfig s.configs t = some cfg →
    lookupCount s.blockCounts t = c →
    c + nows.length ≤ N →
    ((addBlocksRun s t nows).1.all isOkSome = true) ∧
    lookupConfig (addBlocksRun s t nows).2.configs t = some cfg ∧
    lookupCount (addBlocksRun s t nows).2.blockCounts t =
      c + nows.length := by
  intro nows
  induction nows with
  | nil =>
    intro s c hcfg hcnt _
    exact ⟨rfl, hcfg, by simpa [addBlocksRun] using hcnt⟩
  | cons now rest ih =>
    intro s c hcfg hcnt hle
    have hlim : limitReached cfg.maxBlocks (lookupCount s.blockCounts t) =
        false := by
      rw [hmax, hcnt]
      have h1 : (N == 0) = false := beq_eq_false_iff_ne.2 (by omega)
      have h2 : ¬(c ≥ N) := by
        simp only [List.length_cons] at hle
        omega
      simp [limitReached, h1, h2]
    have hsucc := addBlock_success s t now cfg hcfg hlim hok
    simp only [addBlocksRun, hsucc]
    have hcnt' : lookupCount (setCount s.blockCounts t
        (lookupCount s.blockCounts t + 1)) t = c + 1 := by
      rw [lookupCount_setCount_self, hcnt]
    obtain ⟨ha, hb, hc2⟩ := ih
      { s with
          blocks := setBlock s.blocks (generateBlockId now (s.blockIdCounter + 1))
            (newBlockOf s t now cfg),
          blockCounts := setCount s.blockCounts t (lookupCount s.blockCounts t + 1),
          blockIdCounter := s.blockIdCounter + 1 }
      (c + 1) hcfg hcnt'
      (by simp only [List.length_cons] at hle; omega)
    refine ⟨?_, hb, ?_⟩
    · simp [List.all_cons, ha, isOkSome]
    · rw [hc2]
      simp only [List.length_cons]
      omega

/-- C4: for a type registered with a positive limit `N` and a fresh counter,
`N` `addBlock` calls all succeed, the counter reaches `N`, the next
`addBlock` returns the `null` sentinel and leaves the store untouched, and
`canAddBlock` answers `false`. -/
theorem addBlock_at_limit_returns_sentinel (s : Store) (t : String)
    (cfg : BlockConfig) (N : Nat) (nows : List Nat) (now : Nat)
    (hcfg : lookupConfig s.configs t = some cfg)
    (hmax : cfg.maxBlocks = some N) (hN : 0 < N)
    (hok : validateDefaultOk cfg = true)
    (h0 : lookupCount s.blockCounts t = 0) (hlen : nows.length = N) :
    ((addBlocksRun s t nows).1.all isOkSome = true) ∧
    lookupCount (addBlocksRun s t nows).2.blockCounts t = N ∧
    addBlock (addBlocksRun s t nows).2 t now =
      (.ok none, (addBlocksRun s t nows).2) ∧
    canAddBlock (addBlocksRun s t nows).2 t = false := by
  obtain ⟨ha, hcfg', hcnt'⟩ :=
    addBlocksRun_spec t cfg N hmax hN hok nows s 0 hcfg h0 (by omega)
  have hN0 : (N == 0) = false := beq_eq_false_iff_ne.2 (by omega)
  have hcntN : lookupCount (addBlocksRun s t nows).2.blockCounts t = N := by
    rw [hcnt', hlen]
    omega
  refine ⟨ha, hcntN, ?_, ?_⟩
  · apply addBlock_limit _ _ _ cfg hcfg'
    rw [hmax, hcntN]
    simp [limitReached, hN0]
  · simp only [canAddBlock, hcfg', hmax, hN0, Bool.false_eq_true, if_false,
      hcntN]
    exact decide_eq_false (Nat.lt_irrefl N)

/-- Witness for C4 with the concrete `maxBlocks = 2` type. -/
theorem addBlock_at_limit_returns_sentinel_witness :
    ((addBlocksRun limitStore "lim" [5, 6]).1.all isOkSome = true) ∧
    lookupCount (addBlocksRun limitStore "lim" [5, 6]).2.blockCounts
      "lim" = 2 ∧
    addBlock (addBlocksRun limitStore "lim" [5, 6]).2 "lim" 8 =
      (.ok none, (addBlocksRun limitStore "lim" [5, 6]).2) ∧
    canAddBlock (addBlocksRun limitStore "lim" [5, 6]).2 "lim" = false :=
  addBlock_at_limit_returns_sentinel limitStore "lim" cfgLim2 2 [5, 6] 8
    rfl rfl (by omega) rfl rfl rfl

/-! ## Edit-mode arbitration -/

lemma editingAgrees_eq_true_iff_each (s : Store) (o : Option String) :
    editingAgrees s o = true ↔ ∀ x ∈ s.blocks,
      x.isEditing = (match o with
        | some i => x.id == i
        | none => false) := by
  rw [editingAgrees, List.all_eq_true]
  constructor
  · intro h x hx; exact beq_iff_eq.1 (h x hx)
  · intro h x hx; exact beq_iff_eq.2 (h x hx)

lemma agrees_set_editor (bs : List Block) (id : String) (block : Block)
    (hnd : (bs.map (·.id)).Nodup) (hbid : block.id = id)
    (hoff : ∀ y ∈ bs, y.id ≠ id → y.isEditing = false) :
    ∀ x ∈ setBlock bs id { block with isEditing := true },
      x.isEditing = (x.id == id) := by
  intro x hx
  rcases mem_setBlock hnd hx with h1 | ⟨h2, h3⟩
  · subst h1
    show true = (block.id == id)
    exact (beq_iff_eq.2 hbid).symm
  · rw [hoff x h2 h3]
    exact (beq_eq_false_iff_ne.2 h3).symm

lemma enableBlockEdit_step (s : Store) (id : String) (o : Option String)
    (hnd : (blockIds s).Nodup) (hne : "" ∉ blockIds s)
    (hmem : id ∈ blockIds s) (hptr : s.editingBlockId = o)
    (ho : ∀ eid, o = some eid → eid ∈ blockIds s)
    (hagr : editingAgrees s o = true) :
    blockIds (enableBlockEdit s id) = blockIds s ∧
    (enableBlockEdit s id).editingBlockId = some id ∧
    editingAgrees (enableBlockEdit s id) (some id) = true := by
  obtain ⟨block, hf⟩ := findBlock_isSome_of_mem hmem
  have hbid := (findBlock_mem hf).2
  have hprev := (editingAgrees_eq_true_iff_each s o).1 hagr
  cases o with
  | none =>
    simp only [enableBlockEdit, hf, hptr]
    refine ⟨keys_setBlock hmem hbid, trivial, ?_⟩
    apply (editingAgrees_eq_true_iff_each _ _).2
    intro x hx
    show x.isEditing = (x.id == id)
    exact agrees_set_editor s.blocks id block hnd hbid
      (fun y hy _ => hprev y hy) x hx
  | some eid =>
    have heidmem := ho eid rfl
    have heidne : eid ≠ "" := fun h => hne (h ▸ heidmem)
    by_cases heqid : eid = id
    · subst heqid
      have hgf : (eid != "" && eid != eid) = false := by simp
      simp only [enableBlockEdit, hf, hptr, hgf, Bool.false_eq_true, if_false]
      refine ⟨keys_setBlock hmem hbid, trivial, ?_⟩
      apply (editingAgrees_eq_true_iff_each _ _).2
      intro x hx
      show x.isEditing = (x.id == eid)
      refine agrees_set_editor s.blocks eid block hnd hbid ?_ x hx
      intro y hy hyne
      rw [hprev y hy]
      exact beq_eq_false_iff_ne.2 hyne
    · have hg : (eid != "" && eid != id) = true := by
        simp only [Bool.and_eq_true, bne_iff_ne]
        exact ⟨heidne, heqid⟩
      obtain ⟨eb, hfe⟩ := findBlock_isSome_of_mem heidmem
      have hebid := (findBlock_mem hfe).2
      simp only [enableBlockEdit, hf, hptr, hg, if_true, hfe]
      have hkeys1 : (setBlock s.blocks eid
          { eb with isEditing := false }).map (·.id) =
          s.blocks.map (·.id) := keys_setBlock heidmem hebid
      have hnd1 : ((setBlock s.blocks eid
          { eb with isEditing := false }).map (·.id)).Nodup := by
        rw [hkeys1]; exact hnd
      have hmem1 : id ∈ (setBlock s.blocks eid
          { eb with isEditing := false }).map (·.id) := by
        rw [hkeys1]; exact hmem
      refine ⟨?_, trivial, ?_⟩
      · show (setBlock (setBlock s.blocks eid { eb with isEditing := false })
          id { block with isEditing := true }).map (·.id) =
          s.blocks.map (·.id)
        rw [keys_setBlock hmem1
          (show ({ block with isEditing := true } : Block).id = id from hbid),
          hkeys1]
      · apply (editingAgrees_eq_true_iff_each _ _).2
        intro x hx
        show x.isEditing = (x.id == id)
        refine agrees_set_editor _ id block hnd1 hbid ?_ x hx
        intro y hy hyne
        rcases mem_setBlock hnd hy with h1 | ⟨h2, h3⟩
        · subst h1; rfl
        · rw [hprev y h2]
          exact beq_eq_false_iff_ne.2 h3

lemma enableBlockEdit_fold (ids : List String) :
    ∀ (s : Store) (o : Option String),
    (blockIds s).Nodup → "" ∉ blockIds s →
    s.editingBlockId = o → (∀ eid, o = some eid → eid ∈ blockIds s) →
    editingAgrees s o = true → (∀ i ∈ ids, i ∈ blockIds s) →
    blockIds (ids.foldl enableBlockEdit s) = blockIds s ∧
    (ids.foldl enableBlockEdit s).editingBlockId =
      (match ids.getLast? with | none => o | some i => some i) ∧
    editingAgrees (ids.foldl enableBlockEdit s)
      (match ids.getLast? with | none => o | some i => some i) = true := by
  induction ids with
  | nil =>
    intro s o hnd hne hptr _ hagr _
    exact ⟨rfl, hptr, hagr⟩
  | cons i rest ih =>
    intro s o hnd hne hptr ho hagr hex
    obtain ⟨hkeys, hptr', hagr'⟩ :=
      enableBlockEdit_step s i o hnd hne (hex i (List.mem_cons_self i rest))
        hptr ho hagr
    obtain ⟨hkeys2, hptr2, hagr2⟩ := ih (enableBlockEdit s i) (some i)
      (by rw [hkeys]; exact hnd) (by rw [hkeys]; exact hne) hptr'
      (fun eid heq => by
        rw [hkeys]
        cases heq
        exact hex i (List.mem_cons_self i rest))
      hagr' (fun j hj => by rw [hkeys]; exact hex j (List.mem_cons_of_mem i hj))
    simp only [List.foldl_cons]
    refine ⟨by rw [hkeys2, hkeys], ?_, ?_⟩
    · rw [hptr2]
      cases rest with
      | nil => rfl
      | cons r rs =>
        rw [List.getLast?_cons_cons]
        cases hL : (r :: rs).getLast? with
        | none => exact absurd (List.getLast?_eq_none_iff.1 hL) (by simp)
        | some j => rfl
    · cases rest with
      | nil => exact hagr2
      | cons r rs =>
        rw [List.getLast?_cons_cons]
        cases hL : (r :: rs).getLast? with
        | none => exact absurd (List.getLast?_eq_none_iff.1 hL) (by simp)
        | some j =>
          rw [hL] at hagr2
          exact hagr2

/-- C3: starting from a store with distinct, nonempty block ids and no
block in edit mode, after every sequence of `enableBlockEdit` calls on
existing blocks the editing pointer equals the most recently enabled id
(absent for the empty sequence), and a block's `isEditing` flag is set
exactly when it is that block — so at most one block is ever editing and
the pointer always agrees with it. -/
theorem enableBlockEdit_single_editor (s : Store) (ids : List String)
    (hnd : (blockIds s).Nodup) (hne : "" ∉ blockIds s)
    (hptr : s.editingBlockId = none)
    (hflags : editingAgrees s none = true)
    (hex : ∀ i ∈ ids, i ∈ blockIds s) :
    (ids.foldl enableBlockEdit s).editingBlockId = ids.getLast? ∧
    editingAgrees (ids.foldl enableBlockEdit s) ids.getLast? = true := by
  obtain ⟨_, hptr2, hagr2⟩ := enableBlockEdit_fold ids s none hnd hne hptr
    (fun eid heq => Option.noConfusion heq) hflags hex
  have hmatch : (match ids.getLast? with
      | none => (none : Option String)
      | some i => some i) = ids.getLast? := by
    cases ids.getLast? <;> rfl
  rw [hmatch] at hptr2 hagr2
  exact ⟨hptr2, hagr2⟩

/-- Witness for C3: enabling `"y"` then `"x"` on the three-block store
leaves exactly `"x"` editing with the pointer on it. -/
theorem enableBlockEdit_single_editor_witness :
    ((["y", "x"]).foldl enableBlockEdit threeBlockStore).editingBlockId =
      (["y", "x"]).getLast? ∧
    editingAgrees ((["y", "x"]).foldl enableBlockEdit threeBlockStore)
      (["y", "x"]).getLast? = true :=
  enableBlockEdit_single_editor threeBlockStore ["y", "x"] (by decide)
    (by decide) rfl (by decide) (by decide)

/-- C2, demonstrating the code bug: on `oneBlockStore` the check phase of
`saveBlock "block-0-1"` succeeds and captures the block; if the block is
removed while `saveBlock` awaits `onSave` (the collection is then empty),
the resumed post-await update does not re-check existence: it re-inserts
the captured block marked clean and leaves the type counter at `0` even
though one block of the type is present again — instead of the no-op the
spec requires. -/
theorem saveBlock_resumption_reinserts_removed_block :
    saveBlockCheck oneBlockStore "block-0-1" =
      .ok (mkBlock "block-0-1" "a" 0 0) ∧
    (removeBlock oneBlockStore "block-0-1").blocks = [] ∧
    findBlock (saveBlockApply (removeBlock oneBlockStore "block-0-1")
        "block-0-1" (mkBlock "block-0-1" "a" 0 0) 7).blocks "block-0-1" =
      some { mkBlock "block-0-1" "a" 0 0 with
               state := .clean, updatedAt := 7, savedAt := some 7 } ∧
    lookupCount (saveBlockApply (removeBlock oneBlockStore "block-0-1")
        "block-0-1" (mkBlock "block-0-1" "a" 0 0) 7).blockCounts "a" = 0 ∧
    countOfType (saveBlockApply (removeBlock oneBlockStore "block-0-1")
        "block-0-1" (mkBlock "block-0-1" "a" 0 0) 7) "a" = 1 :=
  ⟨rfl, rfl, rfl, rfl, rfl⟩

end BlockParty
